import Mathlib

/-!
Shallow embedding of `bot.py` (twitch-chat-bot): a single-channel IRC chat bot
built around an ordered pattern-rule dispatch loop. Strings are modelled as
`List Char`; the regular expressions actually used by the program are
represented by token lists (`Tok`) together with a leftmost-greedy
backtracking matcher `mtks` that mirrors Python `re.Pattern.match` semantics
(anchored at position 0; `.` matches anything except a newline; `$` matches at
the end of the input or just before a single final newline).
-/

namespace TwitchBot

abbrev Chars := List Char

/-- The CRLF protocol line terminator, `'\r\n'` in the source. -/
def crlf : Chars := ['\r', '\n']

/-- Tokens of the tiny regex sublanguage that `bot.py` actually uses.
`lit t` is literal text; `star pfx cap` is `pfx(.*)`-style greedy dots
(prefixed by the literal fragment `pfx`, capturing `pfx ++ dots` when `cap`);
`plusNot c cap` is a greedy negated single-character class `[^c]+`;
`dollar` is Python's `$` (end of input, or just before a final newline). -/
inductive Tok where
  | lit (t : Chars)
  | star (pfx : Chars) (cap : Bool)
  | plusNot (c : Char) (cap : Bool)
  | dollar
deriving DecidableEq

/-- All splits `(pre, suf)` of a list with `pre ++ suf = s`, shortest `pre`
first; the matcher consumes them in reverse (greedy, longest first). -/
def splits : Chars → List (Chars × Chars)
  | [] => [([], [])]
  | c :: cs => ([], c :: cs) :: (splits cs).map (fun p => (c :: p.1, p.2))

/-- First `some` produced by `f` over the list, in order. -/
def firstSome : List α → (α → Option β) → Option β
  | [], _ => none
  | a :: as, f =>
    match f a with
    | some b => some b
    | none => firstSome as f

/-- Leftmost-greedy backtracking matcher for a token list against an input,
anchored at position 0 (Python `re.Pattern.match`). On success returns the
captured groups in order together with the unconsumed remainder of the input
(the matched text is the input minus that remainder). -/
def mtks : List Tok → Chars → Option (List Chars × Chars)
  | [], s => some ([], s)
  | Tok.lit t :: rest, s =>
    if t.isPrefixOf s then mtks rest (s.drop t.length) else none
  | Tok.star pfx cap :: rest, s =>
    if pfx.isPrefixOf s then
      firstSome (splits (s.drop pfx.length)).reverse (fun ps =>
        if ps.1.contains '\n' then none
        else (mtks rest ps.2).map (fun r =>
          (if cap then (pfx ++ ps.1) :: r.1 else r.1, r.2)))
    else none
  | Tok.plusNot c cap :: rest, s =>
    firstSome (splits s).reverse (fun ps =>
      if ps.1 = [] ∨ ps.1.contains c then none
      else (mtks rest ps.2).map (fun r =>
        (if cap then ps.1 :: r.1 else r.1, r.2)))
  | Tok.dollar :: rest, s =>
    if s = [] ∨ s = ['\n'] then mtks rest s else none

/-- `re.compile('^PING (.*)' + '\r\n$')`: the pattern registered for `pong`. -/
def pongPat : List Tok :=
  [Tok.lit (("PING ").data), Tok.star [] true, Tok.lit crlf, Tok.dollar]

/-- The pattern built by `handle_message(prefix)` and then `handler`:
`'^:(?P<user>[^!]+).* PRIVMSG #(?P<channel>[^ ]+) :(?P<msg>' + prefix + '.*)\r\n$'`
for a literal message prefix. -/
def chatPat (pfx : Chars) : List Tok :=
  [Tok.lit [':'], Tok.plusNot '!' true, Tok.star [] false,
   Tok.lit ((" PRIVMSG #").data), Tok.plusNot ' ' true, Tok.lit ((" :").data),
   Tok.star pfx true, Tok.lit crlf, Tok.dollar]

/-- The pattern registered by `@handle_message('!uptime')` for `cmd_uptime`. -/
def uptimePat : List Tok := chatPat (("!uptime").data)

/-- The pattern registered by `@handle_message('PING')` for `msg_ping`. -/
def msgPingPat : List Tok := chatPat (("PING").data)

/-- `MSG_RE = re.compile('^:([^!]+).* PRIVMSG #[^ ]+ :([^\r]+)')`. -/
def MSG_RE : List Tok :=
  [Tok.lit [':'], Tok.plusNot '!' true, Tok.star [] false,
   Tok.lit ((" PRIVMSG #").data), Tok.plusNot ' ' false, Tok.lit ((" :").data),
   Tok.plusNot '\r' true]

/-- `SEND_MSG_RE = re.compile('^PRIVMSG #[^ ]+ :(?P<msg>[^\r]+)')`. -/
def SEND_MSG_RE : List Tok :=
  [Tok.lit (("PRIVMSG #").data), Tok.plusNot ' ' false, Tok.lit ((" :").data),
   Tok.plusNot '\r' true]

example : mtks pongPat (("PING :abc123\r\n").data) = some ([(":abc123").data], []) := by decide

example : mtks pongPat (("PING a\r\n\n").data) = some ([("a").data], ['\n']) := by decide

example : mtks msgPingPat ((":alice!alice@x PRIVMSG #chan :PING hello\r\n").data) =
    some ([("alice").data, ("chan").data, ("PING hello").data], []) := by decide

example : mtks uptimePat ((":alice!alice@x PRIVMSG #chan :PING hello\r\n").data) = none := by
  decide

example : mtks SEND_MSG_RE (("PONG :abc\r\n").data) = none := by decide

example : mtks SEND_MSG_RE (("PRIVMSG #chan :PONG x\r\ny").data) =
    some ([("PONG x").data], ("\r\ny").data) := by decide

/-- Relational (nondeterministic) match semantics for the token language:
`RM toks s caps rem` holds when `toks` can match a prefix of `s`, producing
captures `caps` and leaving remainder `rem`. The executable matcher `mtks`
realizes one such match (the leftmost-greedy one). -/
inductive RM : List Tok → Chars → List Chars → Chars → Prop where
  | nil (s : Chars) : RM [] s [] s
  | lit (t : Chars) {rest : List Tok} {s rem : Chars} {caps : List Chars} :
      RM rest s caps rem → RM (Tok.lit t :: rest) (t ++ s) caps rem
  | star (pfx : Chars) (cap : Bool) {pre : Chars} {rest : List Tok} {suf rem : Chars}
      {caps : List Chars} :
      pre.contains '\n' = false → RM rest suf caps rem →
      RM (Tok.star pfx cap :: rest) (pfx ++ (pre ++ suf))
        (if cap then (pfx ++ pre) :: caps else caps) rem
  | plusNot (c : Char) (cap : Bool) {pre : Chars} {rest : List Tok} {suf rem : Chars}
      {caps : List Chars} :
      pre ≠ [] → pre.contains c = false → RM rest suf caps rem →
      RM (Tok.plusNot c cap :: rest) (pre ++ suf)
        (if cap then pre :: caps else caps) rem
  | dollar {rest : List Tok} {s rem : Chars} {caps : List Chars} :
      s = [] ∨ s = ['\n'] → RM rest s caps rem → RM (Tok.dollar :: rest) s caps rem

theorem isPrefixOf_true_iff {l1 l2 : Chars} : l1.isPrefixOf l2 = true ↔ l1 <+: l2 :=
  List.isPrefixOf_iff_prefix

theorem splits_mem : ∀ {s : Chars} {pr : Chars × Chars}, pr ∈ splits s → pr.1 ++ pr.2 = s := by
  intro s
  induction s with
  | nil => intro pr h; simp [splits] at h; simp [h]
  | cons c cs ih =>
    intro pr h
    simp only [splits, List.mem_cons, List.mem_map] at h
    rcases h with h | ⟨q, hq, rfl⟩
    · simp [h]
    · simpa using congrArg (c :: ·) (ih hq)

theorem mem_splits_self : ∀ (a b : Chars), (a, b) ∈ splits (a ++ b) := by
  intro a
  induction a with
  | nil => intro b; cases b <;> simp [splits]
  | cons c a ih =>
    intro b
    simp only [List.cons_append, splits, List.mem_cons, List.mem_map]
    exact Or.inr ⟨(a, b), ih b, rfl⟩

theorem firstSome_some {l : List α} {f : α → Option β} {b : β}
    (h : firstSome l f = some b) : ∃ a ∈ l, f a = some b := by
  induction l with
  | nil => simp [firstSome] at h
  | cons a as ih =>
    rw [firstSome] at h
    cases hf : f a with
    | some c =>
      rw [hf] at h
      simp only [] at h
      exact ⟨a, List.mem_cons_self a as, by rw [hf, h]⟩
    | none =>
      rw [hf] at h
      obtain ⟨a2, ha2, hfa2⟩ := ih h
      exact ⟨a2, List.mem_cons_of_mem a ha2, hfa2⟩

theorem firstSome_ne_none {l : List α} {f : α → Option β} {a : α}
    (ha : a ∈ l) (hb : f a ≠ none) : firstSome l f ≠ none := by
  induction l with
  | nil => cases ha
  | cons x xs ih =>
    rw [firstSome]
    cases hf : f x with
    | some c => simp
    | none =>
      rcases List.mem_cons.mp ha with rfl | hmem
      · exact absurd hf hb
      · exact ih hmem

/-- Soundness: a successful run of the executable matcher is a relational match. -/
theorem mtks_sound : ∀ (toks : List Tok) (s : Chars) (caps : List Chars) (rem : Chars),
    mtks toks s = some (caps, rem) → RM toks s caps rem := by
  intro toks
  induction toks with
  | nil =>
    intro s caps rem h
    simp only [mtks, Option.some.injEq, Prod.mk.injEq] at h
    obtain ⟨rfl, rfl⟩ := h
    exact RM.nil s
  | cons tok rest ih =>
    intro s caps rem h
    cases tok with
    | lit t =>
      rw [mtks] at h
      split at h
      case isTrue hp =>
        obtain ⟨u, rfl⟩ := isPrefixOf_true_iff.mp hp
        rw [List.drop_left] at h
        exact RM.lit t (ih _ _ _ h)
      case isFalse => cases h
    | star pfx cap =>
      rw [mtks] at h
      split at h
      case isFalse => cases h
      case isTrue hp =>
        obtain ⟨u, rfl⟩ := isPrefixOf_true_iff.mp hp
        rw [List.drop_left] at h
        obtain ⟨ps, hmem, hf⟩ := firstSome_some h
        have hsplit : ps.1 ++ ps.2 = u := splits_mem (List.mem_reverse.mp hmem)
        split at hf
        case isTrue => cases hf
        case isFalse hnl =>
          obtain ⟨r, hr, hco⟩ := Option.map_eq_some'.mp hf
          obtain ⟨caps2, rem2⟩ := r
          obtain ⟨rfl, rfl⟩ := Prod.mk.injEq .. ▸ hco
          subst hsplit
          exact RM.star pfx cap (Bool.not_eq_true _ ▸ hnl) (ih _ _ _ hr)
    | plusNot c cap =>
      rw [mtks] at h
      obtain ⟨ps, hmem, hf⟩ := firstSome_some h
      have hsplit : ps.1 ++ ps.2 = s := splits_mem (List.mem_reverse.mp hmem)
      split at hf
      case isTrue => cases hf
      case isFalse hcond =>
        push_neg at hcond
        obtain ⟨hne, hnc⟩ := hcond
        obtain ⟨r, hr, hco⟩ := Option.map_eq_some'.mp hf
        obtain ⟨caps2, rem2⟩ := r
        obtain ⟨rfl, rfl⟩ := Prod.mk.injEq .. ▸ hco
        subst hsplit
        exact RM.plusNot c cap hne (Bool.not_eq_true _ ▸ hnc) (ih _ _ _ hr)
    | dollar =>
      rw [mtks] at h
      split at h
      case isTrue hc => exact RM.dollar hc (ih _ _ _ h)
      case isFalse => cases h

/-- Completeness: when a relational match exists, the executable matcher
succeeds (possibly with a different, leftmost-greedy, result). -/
theorem mtks_complete {toks : List Tok} {s : Chars} {caps : List Chars} {rem : Chars}
    (h : RM toks s caps rem) : mtks toks s ≠ none := by
  induction h with
  | nil s => simp [mtks]
  | lit t h ih =>
    rw [mtks]
    rw [if_pos (isPrefixOf_true_iff.mpr (List.prefix_append _ _)), List.drop_left]
    exact ih
  | star pfx cap hpre h ih =>
    rename_i pre rest suf rem2 caps2
    rw [mtks]
    rw [if_pos (isPrefixOf_true_iff.mpr (List.prefix_append _ _)), List.drop_left]
    apply firstSome_ne_none (a := (pre, suf))
    · exact List.mem_reverse.mpr (mem_splits_self pre suf)
    · simp only [hpre, if_false, Bool.false_eq_true]
      simp only [ne_eq, Option.map_eq_none']
      exact ih
  | plusNot c cap hne hnc h ih =>
    rename_i pre rest suf rem2 caps2
    rw [mtks]
    apply firstSome_ne_none (a := (pre, suf))
    · exact List.mem_reverse.mpr (mem_splits_self pre suf)
    · have : ¬(pre = [] ∨ pre.contains c = true) := by
        push_neg
        exact ⟨hne, by simp_all⟩
      rw [if_neg this]
      simp only [ne_eq, Option.map_eq_none']
      exact ih
  | dollar hc h ih =>
    rw [mtks, if_pos hc]
    exact ih

/-- Python `str.replace(c, r)` restricted to a single-character needle. -/
def replaceChar (c : Char) (r : Chars) : Chars → Chars
  | [] => []
  | x :: xs => (if x = c then r else [x]) ++ replaceChar c r xs

/-- `esc`: `s.replace('{', '{{').replace('}', '}}')` (bot.py line 45). -/
def esc (s : Chars) : Chars :=
  replaceChar '\x7d' ['\x7d', '\x7d'] (replaceChar '\x7b' ['\x7b', '\x7b'] s)

theorem replaceChar_append (c : Char) (r : Chars) :
    ∀ (a b : Chars), replaceChar c r (a ++ b) = replaceChar c r a ++ replaceChar c r b := by
  intro a b
  induction a with
  | nil => simp [replaceChar]
  | cons x xs ih => simp [replaceChar, ih]

theorem esc_cons_open (s : Chars) : esc ('\x7b' :: s) = '\x7b' :: '\x7b' :: esc s := by
  unfold esc
  rw [show replaceChar '\x7b' ['\x7b', '\x7b'] ('\x7b' :: s) =
      ['\x7b', '\x7b'] ++ replaceChar '\x7b' ['\x7b', '\x7b'] s from by simp [replaceChar]]
  rw [replaceChar_append]
  simp [replaceChar]

theorem esc_cons_close (s : Chars) : esc ('\x7d' :: s) = '\x7d' :: '\x7d' :: esc s := by
  unfold esc
  rw [show replaceChar '\x7b' ['\x7b', '\x7b'] ('\x7d' :: s) =
      ['\x7d'] ++ replaceChar '\x7b' ['\x7b', '\x7b'] s from by simp [replaceChar]]
  rw [replaceChar_append]
  simp [replaceChar]

theorem esc_cons_other (c : Char) (s : Chars) (h1 : c ≠ '\x7b') (h2 : c ≠ '\x7d') :
    esc (c :: s) = c :: esc s := by
  unfold esc
  rw [show replaceChar '\x7b' ['\x7b', '\x7b'] (c :: s) =
      [c] ++ replaceChar '\x7b' ['\x7b', '\x7b'] s from by simp [replaceChar, h1]]
  rw [replaceChar_append]
  simp [replaceChar, h2]

/-- Python `str.partition(sep)` for a single-character separator:
`(before, sep, after)` at the first occurrence, or `(s, '', '')`. -/
def pyPartition (sep : Char) (s : Chars) : Chars × Chars × Chars :=
  if s.contains sep then
    (s.takeWhile (fun c => c ≠ sep), [sep], (s.dropWhile (fun c => c ≠ sep)).drop 1)
  else (s, [], [])

/-- Scanner state for the `str.format` model: plain text, just after `'{'`,
inside a replacement-field name, or just after `'}'`. -/
inductive FMode where
  | text
  | opn
  | field (acc : Chars)
  | clo
deriving DecidableEq

/-- One-pass model of Python `str.format(**params)` for the formats used in
bot.py: doubled braces become literal braces, `\x7bname\x7d` is replaced by the
named parameter (inserted verbatim, not rescanned), and malformed formats
raise (`Except.error` carries the exception class name). Conversion/format
specs (`!`/`:`) are not used by any format string in the program. -/
def pyFmtGo (ps : List (Chars × Chars)) : FMode → Chars → Except Chars Chars
  | FMode.text, [] => Except.ok []
  | FMode.text, c :: r =>
    if c = '\x7b' then pyFmtGo ps FMode.opn r
    else if c = '\x7d' then pyFmtGo ps FMode.clo r
    else
      match pyFmtGo ps FMode.text r with
      | Except.ok out => Except.ok (c :: out)
      | Except.error k => Except.error k
  | FMode.opn, [] => Except.error (("ValueError").data)
  | FMode.opn, c :: r =>
    if c = '\x7b' then
      match pyFmtGo ps FMode.text r with
      | Except.ok out => Except.ok ('\x7b' :: out)
      | Except.error k => Except.error k
    else if c = '\x7d' then Except.error (("IndexError").data)
    else pyFmtGo ps (FMode.field [c]) r
  | FMode.field _, [] => Except.error (("ValueError").data)
  | FMode.field acc, c :: r =>
    if c = '\x7d' then
      match List.lookup acc.reverse ps with
      | some v =>
        match pyFmtGo ps FMode.text r with
        | Except.ok out => Except.ok (v ++ out)
        | Except.error k => Except.error k
      | none => Except.error (("KeyError").data)
    else pyFmtGo ps (FMode.field (c :: acc)) r
  | FMode.clo, [] => Except.error (("ValueError").data)
  | FMode.clo, c :: r =>
    if c = '\x7d' then
      match pyFmtGo ps FMode.text r with
      | Except.ok out => Except.ok ('\x7d' :: out)
      | Except.error k => Except.error k
    else Except.error (("ValueError").data)

/-- `fmt.format(**params)` with `params` as an association list. -/
def pyFormat (ps : List (Chars × Chars)) (fmt : Chars) : Except Chars Chars :=
  pyFmtGo ps FMode.text fmt

/-- Formatting an escaped string never raises and undoes the escaping:
format-string injection is neutralized by `esc`. -/
theorem pyFmtGo_esc (ps : List (Chars × Chars)) (s t : Chars) :
    pyFmtGo ps FMode.text (esc s ++ t) =
      match pyFmtGo ps FMode.text t with
      | Except.ok out => Except.ok (s ++ out)
      | Except.error k => Except.error k := by
  induction s with
  | nil =>
    rw [show esc [] = [] from rfl]
    cases h : pyFmtGo ps FMode.text t <;> simp [h]
  | cons c s ih =>
    by_cases h1 : c = '\x7b'
    · subst h1
      rw [esc_cons_open]
      rw [show ('\x7b' :: '\x7b' :: esc s) ++ t = '\x7b' :: ('\x7b' :: (esc s ++ t)) from by
        simp]
      rw [show pyFmtGo ps FMode.text ('\x7b' :: ('\x7b' :: (esc s ++ t))) =
          pyFmtGo ps FMode.opn ('\x7b' :: (esc s ++ t)) from by simp [pyFmtGo]]
      rw [show pyFmtGo ps FMode.opn ('\x7b' :: (esc s ++ t)) =
          (match pyFmtGo ps FMode.text (esc s ++ t) with
           | Except.ok out => Except.ok ('\x7b' :: out)
           | Except.error k => Except.error k) from by simp [pyFmtGo]]
      rw [ih]
      cases h : pyFmtGo ps FMode.text t <;> simp
    · by_cases h2 : c = '\x7d'
      · subst h2
        rw [esc_cons_close]
        rw [show ('\x7d' :: '\x7d' :: esc s) ++ t = '\x7d' :: ('\x7d' :: (esc s ++ t)) from by
          simp]
        rw [show pyFmtGo ps FMode.text ('\x7d' :: ('\x7d' :: (esc s ++ t))) =
            pyFmtGo ps FMode.clo ('\x7d' :: (esc s ++ t)) from by simp [pyFmtGo]]
        rw [show pyFmtGo ps FMode.clo ('\x7d' :: (esc s ++ t)) =
            (match pyFmtGo ps FMode.text (esc s ++ t) with
             | Except.ok out => Except.ok ('\x7d' :: out)
             | Except.error k => Except.error k) from by simp [pyFmtGo]]
        rw [ih]
        cases h : pyFmtGo ps FMode.text t <;> simp
      · rw [esc_cons_other c s h1 h2]
        rw [show (c :: esc s) ++ t = c :: (esc s ++ t) from by simp]
        rw [show pyFmtGo ps FMode.text (c :: (esc s ++ t)) =
            (match pyFmtGo ps FMode.text (esc s ++ t) with
             | Except.ok out => Except.ok (c :: out)
             | Except.error k => Except.error k) from by simp [pyFmtGo, h1, h2]]
        rw [ih]
        cases h : pyFmtGo ps FMode.text t <;> simp

/-- `PRIVMSG = 'PRIVMSG #\x7bchannel\x7d :\x7bmsg\x7d\r\n'` (bot.py line 24). -/
def PRIVMSG : Chars := ("PRIVMSG #\x7bchannel\x7d :\x7bmsg\x7d\r\n").data

/-- The fully substituted outbound chat line `PRIVMSG #<channel> :<msg>\r\n`. -/
def privmsgLine (channel msg : Chars) : Chars :=
  ("PRIVMSG #").data ++ channel ++ (" :").data ++ msg ++ crlf

/-- Formatting the `PRIVMSG` template always succeeds and produces
`privmsgLine` (parameter values are inserted verbatim, never rescanned). -/
theorem pyFormat_PRIVMSG (ps : List (Chars × Chars)) (ch m : Chars)
    (hch : List.lookup (("channel").data) ps = some ch)
    (hm : List.lookup (("msg").data) ps = some m) :
    pyFormat ps PRIVMSG = Except.ok (privmsgLine ch m) := by
  have hch2 : List.lookup ['c', 'h', 'a', 'n', 'n', 'e', 'l'] ps = some ch := hch
  have hm2 : List.lookup ['m', 's', 'g'] ps = some m := hm
  have e : PRIVMSG = 'P' :: 'R' :: 'I' :: 'V' :: 'M' :: 'S' :: 'G' :: ' ' :: '#' :: '\x7b' ::
      'c' :: 'h' :: 'a' :: 'n' :: 'n' :: 'e' :: 'l' :: '\x7d' :: ' ' :: ':' :: '\x7b' ::
      'm' :: 's' :: 'g' :: '\x7d' :: '\r' :: '\n' :: [] := rfl
  rw [pyFormat, e]
  simp +decide only [pyFmtGo, ite_true, ite_false, List.reverse_cons, List.reverse_nil,
    List.nil_append, List.cons_append, hch2, hm2]
  rw [show privmsgLine ch m = 'P' :: 'R' :: 'I' :: 'V' :: 'M' :: 'S' :: 'G' :: ' ' :: '#' ::
      (ch ++ (' ' :: ':' :: (m ++ ('\r' :: '\n' :: [])))) from by
    simp [privmsgLine, crlf]]

/-- The session configuration (bot.py `Config`, lines 28-42). Its `__repr__`
redacts `oauth_token` and `client_id`; the token is otherwise used only in the
`PASS` bootstrap line. -/
structure Config where
  username : Chars
  channel : Chars
  oauth_token : Chars
  client_id : Chars

/-- A stream record of the external status service, reduced to the one field
the program reads: `started_at`, already parsed by
`datetime.strptime(_, '%Y-%m-%dT%H:%M:%SZ')` into a timestamp modelled as
whole seconds. -/
structure StreamRec where
  started_at : Int
deriving DecidableEq

/-- The external world an `UptimeResponse` resolution observes: the outcome of
the HTTP GET + `json.loads(text)['data']` + `strptime` pipeline (`Except.error`
carries the exception class name when any of those raise), and
`datetime.datetime.utcnow()` as whole seconds. -/
structure World where
  streams : Except Chars (List StreamRec)
  now : Int

/-- The unit table `((60*60, 'hours'), (60, 'minutes'), (1, 'seconds'))`. -/
def UNITS : List (Int × Chars) :=
  [(3600, ("hours").data), (60, ("minutes").data), (1, ("seconds").data)]

/-- The `for n, unit in ...` loop of `UptimeResponse.__call__` (lines 138-146):
append `f'\x7belapsed // n\x7d \x7bunit\x7d'` when the quotient is nonzero,
then reduce `elapsed` modulo `n`. Python `//`/`%` on a nonnegative value with
positive divisors agree with `Int.ediv`/`Int.emod`. -/
def partsLoop : Int → List (Int × Chars) → List Chars
  | _, [] => []
  | elapsed, (n, unit) :: rest =>
    (if elapsed.ediv n ≠ 0 then [(toString (elapsed.ediv n)).data ++ (' ' :: unit)] else [])
      ++ partsLoop (elapsed.emod n) rest

/-- `f'streaming for: \x7b", ".join(parts)\x7d'`. -/
def uptimeMsg (elapsed : Int) : Chars :=
  ("streaming for: ").data ++ List.intercalate ((", ").data) (partsLoop elapsed UNITS)

/-- `UptimeResponse.__call__` (lines 118-148). The elapsed value is
`(datetime.datetime.utcnow() - start_time).seconds`: the seconds-of-day field
of the timedelta, i.e. the difference reduced modulo 86400 — NOT
`total_seconds()`. -/
def uptimeCall (config : Config) (w : World) : Except Chars (Option Chars) :=
  match w.streams with
  | Except.error k => Except.error k
  | Except.ok [] =>
    match pyFormat [((("channel").data), config.channel),
                    ((("msg").data), ("not currently streaming!").data)] PRIVMSG with
    | Except.ok out => Except.ok (some out)
    | Except.error k => Except.error k
  | Except.ok (r :: _) =>
    let elapsed : Int := (w.now - r.started_at).emod 86400
    match pyFormat [((("channel").data), config.channel),
                    ((("msg").data), uptimeMsg elapsed)] PRIVMSG with
    | Except.ok out => Except.ok (some out)
    | Except.error k => Except.error k

/-- Deep embedding of the `Response` class hierarchy: `CmdResponse` holds a
literal command line; `MessageResponse` holds the match's named captures
(`user`, `channel`, `msg`) plus the message format string; `UptimeResponse`
holds nothing and queries the status service on resolution. -/
inductive Response where
  | cmd (c : Chars)
  | message (user channel msg : Chars) (msg_fmt : Chars)
  | uptime
deriving DecidableEq

/-- Resolution `response(config)` of a `Response` against the configuration
(and, for `UptimeResponse`, the external world). `Except.error` models a
raised exception, carrying the exception class name. -/
def Response.call (r : Response) (config : Config) (w : World) :
    Except Chars (Option Chars) :=
  match r with
  | Response.cmd c => Except.ok (some c)
  | Response.message user channel msg msg_fmt =>
    match pyFormat [((("user").data), user), ((("channel").data), channel),
                    ((("msg").data), msg)] msg_fmt with
    | Except.error k => Except.error k
    | Except.ok m2 =>
      match pyFormat [((("user").data), user), ((("channel").data), channel),
                      ((("msg").data), m2)] PRIVMSG with
      | Except.error k => Except.error k
      | Except.ok out => Except.ok (some out)
  | Response.uptime => uptimeCall config w

/-- A handler factory: from the match's captured groups to a `Response`. -/
abbrev Factory := List Chars → Response

/-- `pong` (lines 113-115): `CmdResponse(f'PONG \x7bmatch.group(1)\x7d\r\n')`. -/
def pong : Factory := fun caps =>
  Response.cmd (("PONG ").data ++ caps.getD 0 [] ++ crlf)

/-- `cmd_uptime` (lines 151-153): returns `UptimeResponse()`. -/
def cmd_uptime : Factory := fun _ => Response.uptime

/-- `msg_ping` (lines 156-160): takes the third group `msg`, strips up to the
first space with `partition(' ')`, and builds
`MessageResponse(match, f'PONG \x7besc(rest)\x7d')`. -/
def msg_ping : Factory := fun caps =>
  let msg := caps.getD 2 []
  let rest := (pyPartition ' ' msg).2.2
  Response.message (caps.getD 0 []) (caps.getD 1 []) msg (("PONG ").data ++ esc rest)

/-- The registration-order rule table built by the decorators as the module
loads: `pong` (line 113), then `cmd_uptime` (line 151), then `msg_ping`
(line 156). -/
def HANDLERS : List (List Tok × Factory) :=
  [(pongPat, pong), (uptimePat, cmd_uptime), (msgPingPat, msg_ping)]

/-- The `for pattern, handler in HANDLERS` scan (lines 183-185): first
pattern whose `match` succeeds wins; returns its factory and captures. -/
def findMatch : List (List Tok × Factory) → Chars → Option (Factory × List Chars)
  | [], _ => none
  | (p, f) :: rest, line =>
    match mtks p line with
    | some r => some (f, r.1)
    | none => findMatch rest line

/-- The fallback built in the `except` branch (lines 188-193):
`PRIVMSG.format(channel=config.channel, msg=f'*** unhandled \x7btype(e).__name__\x7d -- see logs')`.
Formatting this fixed template never raises (`pyFormat_PRIVMSG`), so the
unreachable error arm returns `[]`. -/
def fallbackLine (config : Config) (kind : Chars) : Chars :=
  match pyFormat [((("channel").data), config.channel),
                  ((("msg").data), ("*** unhandled ").data ++ kind ++ (" -- see logs").data)]
      PRIVMSG with
  | Except.ok out => out
  | Except.error _ => []

/-- The observable effects of one iteration of the dispatch loop body
(lines 176-202) on one decoded line: the chat log entry for an `MSG_RE` match,
whether `traceback.print_exc()` ran, the outbound chat log entry for a
`SEND_MSG_RE` match of the response, the line written to the transport, and
whether the line fell through unmatched. (The `dt_str()` timestamps and the
quiet-flag gating of raw-wire echoes are presentation details not modelled.) -/
structure StepResult where
  chatLog : Option (Chars × Chars)
  tbLogged : Bool
  sendLog : Option Chars
  sent : Option Chars
  unhandled : Bool
deriving DecidableEq

/-- One iteration of the dispatch loop body for a decoded line. -/
def processLine (config : Config) (w : World) (line : Chars) : StepResult :=
  let chatLog := match mtks MSG_RE line with
    | some r => some (r.1.getD 0 [], r.1.getD 1 [])
    | none => none
  match findMatch HANDLERS line with
  | none => ⟨chatLog, false, none, none, true⟩
  | some (f, caps) =>
    match Response.call (f caps) config w with
    | Except.ok none => ⟨chatLog, false, none, none, false⟩
    | Except.ok (some res) =>
      ⟨chatLog, false, (mtks SEND_MSG_RE res).map (fun r => r.1.getD 0 []), some res, false⟩
    | Except.error k =>
      let res := fallbackLine config k
      ⟨chatLog, true, (mtks SEND_MSG_RE res).map (fun r => r.1.getD 0 []), some res, false⟩

/-- The `while True` loop (lines 175-202) run over a finite prefix of the
incoming line stream, each line paired with the external world its handler
resolution observes. Lines are processed strictly sequentially. -/
def runLoop (config : Config) : List (Chars × World) → List StepResult
  | [] => []
  | (line, w) :: rest => processLine config w line :: runLoop config rest

/-- `send(writer, msg, quiet=...)` (lines 49-53): returns the line written to
the transport and the optional `'< ' + msg` diagnostic echo on stderr. -/
def send (msg : Chars) (quiet : Bool) : Chars × Option Chars :=
  (msg, if quiet then none else some (("< ").data ++ msg))

/-- Session bootstrap (lines 171-173): `PASS` (always `quiet=True`), `NICK`,
`JOIN`, in that order, before the loop starts. Returns the transport lines in
send order and the diagnostic echoes actually emitted. -/
def bootstrap (config : Config) (quiet : Bool) : List Chars × List Chars :=
  let s1 := send (("PASS ").data ++ config.oauth_token ++ crlf) true
  let s2 := send (("NICK ").data ++ config.username ++ crlf) quiet
  let s3 := send (("JOIN #").data ++ config.channel ++ crlf) quiet
  ([s1.1, s2.1, s3.1], [s1.2, s2.2, s3.2].filterMap id)

/-- A concrete configuration used for closed evaluation theorems. -/
def cfg0 : Config :=
  ⟨("testuser").data, ("chan").data, ("sekrit-token").data, ("cid").data⟩

/-- A concrete world: service offline-with-empty-answer, epoch now. -/
def w0 : World := ⟨Except.ok [], 0⟩

example : (processLine cfg0 w0 (("PING :abc\r\n").data)).sent =
    some (("PONG :abc\r\n").data) := by decide

example : (processLine cfg0 w0 ((":alice!alice@x PRIVMSG #chan :PING hello\r\n").data)).sent =
    some (("PRIVMSG #chan :PONG hello\r\n").data) := by decide

example : uptimeCall cfg0 ⟨Except.ok [⟨0⟩], 3661⟩ =
    Except.ok (some (("PRIVMSG #chan :streaming for: 1 hours, 1 minutes, 1 seconds\r\n").data)) := by
  rfl

/-- Inversion: any relational match of the `pong` pattern decomposes the input
as `'PING ' ++ g ++ '\r\n' ++ rem` with `g` newline-free, capturing `[g]`, and
`rem` empty or a single final newline. -/
theorem RM_pongPat {s rem : Chars} {caps : List Chars} (h : RM pongPat s caps rem) :
    ∃ g, caps = [g] ∧ g.contains '\n' = false ∧ (rem = [] ∨ rem = ['\n']) ∧
      s = ("PING ").data ++ (g ++ (crlf ++ rem)) := by
  unfold pongPat at h
  cases h with
  | lit _ h1 =>
    cases h1 with
    | star _ _ hpre h2 =>
      cases h2 with
      | lit _ h3 =>
        cases h3 with
        | dollar hd h4 =>
          cases h4 with
          | nil => exact ⟨_, by simp, hpre, hd, by simp⟩

/-- Inversion: any relational match of a `handle_message`-style pattern
decomposes the input as
`':' ++ u ++ mid ++ ' PRIVMSG #' ++ ch ++ ' :' ++ pfx ++ mr ++ '\r\n' ++ rem`
and captures `[u, ch, pfx ++ mr]`. -/
theorem RM_chatPat {pfx s rem : Chars} {caps : List Chars}
    (h : RM (chatPat pfx) s caps rem) :
    ∃ u mid ch mr, caps = [u, ch, pfx ++ mr] ∧
      u ≠ [] ∧ u.contains '!' = false ∧ mid.contains '\n' = false ∧
      ch ≠ [] ∧ ch.contains ' ' = false ∧ mr.contains '\n' = false ∧
      (rem = [] ∨ rem = ['\n']) ∧
      s = [':'] ++ (u ++ (mid ++ ((" PRIVMSG #").data ++
        (ch ++ ((" :").data ++ (pfx ++ (mr ++ (crlf ++ rem)))))))) := by
  unfold chatPat at h
  cases h with
  | lit _ h1 =>
    cases h1 with
    | plusNot _ _ hu1 hu2 h2 =>
      cases h2 with
      | star _ _ hmid h3 =>
        cases h3 with
        | lit _ h4 =>
          cases h4 with
          | plusNot _ _ hch1 hch2 h5 =>
            cases h5 with
            | lit _ h6 =>
              cases h6 with
              | star _ _ hmr h7 =>
                cases h7 with
                | lit _ h8 =>
                  cases h8 with
                  | dollar hd h9 =>
                    cases h9 with
                    | nil =>
                      refine ⟨_, _, _, _, by simp, hu1, hu2, hmid, hch1, hch2, hmr, hd, ?_⟩
                      simp

/-- Resolving the `MessageResponse` built by `msg_ping` never raises: the
escaped remainder formats back to itself, and the `PRIVMSG` template formats
to the outbound chat line. -/
theorem msg_ping_call (caps : List Chars) (config : Config) (w : World) :
    Response.call (msg_ping caps) config w =
      Except.ok (some (privmsgLine (caps.getD 1 [])
        (("PONG ").data ++ (pyPartition ' ' (caps.getD 2 [])).2.2))) := by
  rw [msg_ping]
  simp only []
  rw [Response.call]
  have hesc : pyFormat
      [((("user").data), caps.getD 0 []), ((("channel").data), caps.getD 1 []),
       ((("msg").data), caps.getD 2 [])]
      (("PONG ").data ++ esc ((pyPartition ' ' (caps.getD 2 [])).2.2)) =
      Except.ok (("PONG ").data ++ (pyPartition ' ' (caps.getD 2 [])).2.2) := by
    rw [pyFormat]
    rw [show ("PONG ").data ++ esc ((pyPartition ' ' (caps.getD 2 [])).2.2) =
        'P' :: 'O' :: 'N' :: 'G' :: ' ' ::
          (esc ((pyPartition ' ' (caps.getD 2 [])).2.2) ++ []) from by simp]
    rw [show pyFmtGo
        [((("user").data), caps.getD 0 []), ((("channel").data), caps.getD 1 []),
         ((("msg").data), caps.getD 2 [])]
        FMode.text ('P' :: 'O' :: 'N' :: 'G' :: ' ' ::
          (esc ((pyPartition ' ' (caps.getD 2 [])).2.2) ++ [])) =
        (match pyFmtGo
            [((("user").data), caps.getD 0 []), ((("channel").data), caps.getD 1 []),
             ((("msg").data), caps.getD 2 [])]
            FMode.text (esc ((pyPartition ' ' (caps.getD 2 [])).2.2) ++ []) with
         | Except.ok out => Except.ok ('P' :: 'O' :: 'N' :: 'G' :: ' ' :: out)
         | Except.error k => Except.error k) from by
      simp +decide only [pyFmtGo, ite_true, ite_false]
      cases pyFmtGo
          [((("user").data), caps.getD 0 []), ((("channel").data), caps.getD 1 []),
           ((("msg").data), caps.getD 2 [])]
          FMode.text (esc ((pyPartition ' ' (caps.getD 2 [])).2.2) ++ []) <;> rfl]
    rw [pyFmtGo_esc]
    rw [show pyFmtGo
        [((("user").data), caps.getD 0 []), ((("channel").data), caps.getD 1 []),
         ((("msg").data), caps.getD 2 [])] FMode.text [] = Except.ok [] from rfl]
    simp
  rw [hesc]
  have hp := pyFormat_PRIVMSG
    [((("user").data), caps.getD 0 []), ((("channel").data), caps.getD 1 []),
     ((("msg").data), ("PONG ").data ++ (pyPartition ' ' (caps.getD 2 [])).2.2)]
    (caps.getD 1 []) (("PONG ").data ++ (pyPartition ' ' (caps.getD 2 [])).2.2)
    (by simp [List.lookup]) (by simp [List.lookup])
  change (match pyFormat [((("user").data), caps.getD 0 []), ((("channel").data), caps.getD 1 []),
      ((("msg").data), ("PONG ").data ++ (pyPartition ' ' (caps.getD 2 [])).2.2)] PRIVMSG with
    | Except.error k => (Except.error k : Except Chars (Option Chars))
    | Except.ok out => Except.ok (some out)) = _
  rw [hp]

/-- The `pong` pattern matched against `'PING ' ++ p ++ '\r\n'` for a
newline-free payload `p` captures exactly `[p]` and consumes the whole line. -/
theorem mtks_pong_exact (p : Chars) (hp : p.contains '\n' = false) :
    mtks pongPat (("PING ").data ++ (p ++ crlf)) = some ([p], []) := by
  have hrm : RM pongPat (("PING ").data ++ (p ++ crlf)) [p] [] :=
    RM.lit _ (RM.star [] true hp (RM.lit _ (RM.dollar (Or.inl rfl) (RM.nil []))))
  have h2 := mtks_complete hrm
  cases hm : mtks pongPat (("PING ").data ++ (p ++ crlf)) with
  | none => exact absurd hm h2
  | some r =>
    obtain ⟨caps, rem⟩ := r
    have hs := mtks_sound _ _ _ _ hm
    obtain ⟨g, hcaps, hg, hrem, hseq⟩ := RM_pongPat hs
    have h3 : p ++ crlf = g ++ (crlf ++ rem) := List.append_cancel_left hseq
    have hcp : List.count '\n' p = 0 := List.count_eq_zero.mpr (by simp_all)
    have hcg : List.count '\n' g = 0 := List.count_eq_zero.mpr (by simp_all)
    rcases hrem with rfl | rfl
    · have h4 : p ++ crlf = g ++ crlf := by simpa using h3
      have h5 : p = g := List.append_cancel_right h4
      subst h5
      simp [hcaps]
    · exfalso
      have h6 := congrArg (List.count '\n') h3
      rw [List.count_append, List.count_append, List.count_append, hcp, hcg] at h6
      simp [crlf] at h6

/-- Constructing a relational match for a `handle_message` pattern from the
components of a well-formed chat line. -/
theorem RM_chatPat_build (pfx u mid ch mr rem : Chars) (hu1 : u ≠ [])
    (hu2 : u.contains '!' = false) (hmid : mid.contains '\n' = false) (hch1 : ch ≠ [])
    (hch2 : ch.contains ' ' = false) (hmr : mr.contains '\n' = false)
    (hrem : rem = [] ∨ rem = ['\n']) :
    RM (chatPat pfx) ([':'] ++ (u ++ (mid ++ ((" PRIVMSG #").data ++
        (ch ++ ((" :").data ++ (pfx ++ (mr ++ (crlf ++ rem)))))))))
      [u, ch, pfx ++ mr] rem :=
  RM.lit _ (RM.plusNot '!' true hu1 hu2 (RM.star [] false hmid (RM.lit _
    (RM.plusNot ' ' true hch1 hch2 (RM.lit _ (RM.star pfx true hmr (RM.lit _
      (RM.dollar hrem (RM.nil rem)))))))))

/-- `SEND_MSG_RE` recognizes every outbound chat line whose channel is
nonempty and space-free and whose message starts with a non-CR character. -/
theorem SEND_recognizes (ch : Chars) (c0 : Char) (m2 : Chars) (hch1 : ch ≠ [])
    (hch2 : ch.contains ' ' = false) (hc0 : ([c0] : Chars).contains '\r' = false) :
    mtks SEND_MSG_RE (privmsgLine ch (c0 :: m2)) ≠ none := by
  have hrm : RM SEND_MSG_RE (("PRIVMSG #").data ++ (ch ++ ((" :").data ++
      ([c0] ++ (m2 ++ crlf))))) [[c0]] (m2 ++ crlf) :=
    RM.lit _ (RM.plusNot ' ' false hch1 hch2 (RM.lit _
      (RM.plusNot '\r' true (by simp) hc0 (RM.nil _))))
  rw [show privmsgLine ch (c0 :: m2) = ("PRIVMSG #").data ++ (ch ++ ((" :").data ++
      ([c0] ++ (m2 ++ crlf)))) from by simp [privmsgLine]]
  exact mtks_complete hrm

/-- `UptimeResponse` resolution when the service reports no active stream
(lines 128-130). -/
theorem uptimeCall_offline (config : Config) (w : World)
    (hw : w.streams = Except.ok []) :
    uptimeCall config w =
      Except.ok (some (privmsgLine config.channel (("not currently streaming!").data))) := by
  unfold uptimeCall
  rw [hw]
  change (match pyFormat [((("channel").data), config.channel),
      ((("msg").data), ("not currently streaming!").data)] PRIVMSG with
    | Except.ok out => (Except.ok (some out) : Except Chars (Option Chars))
    | Except.error k => Except.error k) = _
  rw [pyFormat_PRIVMSG _ config.channel (("not currently streaming!").data)
    (by simp [List.lookup]) (by simp [List.lookup])]

/-- `UptimeResponse` resolution when the service reports an active stream
(lines 132-148): the reported duration is computed from
`(utcnow() - start_time).seconds`, i.e. the difference modulo 86400. -/
theorem uptimeCall_online (config : Config) (w : World) (r : StreamRec)
    (tl : List StreamRec) (hw : w.streams = Except.ok (r :: tl)) :
    uptimeCall config w = Except.ok (some (privmsgLine config.channel
      (uptimeMsg ((w.now - r.started_at).emod 86400)))) := by
  unfold uptimeCall
  rw [hw]
  change (match pyFormat [((("channel").data), config.channel),
      ((("msg").data), uptimeMsg ((w.now - r.started_at).emod 86400))] PRIVMSG with
    | Except.ok out => (Except.ok (some out) : Except Chars (Option Chars))
    | Except.error k => Except.error k) = _
  rw [pyFormat_PRIVMSG _ config.channel (uptimeMsg ((w.now - r.started_at).emod 86400))
    (by simp [List.lookup]) (by simp [List.lookup])]

/-- The fallback chat line built in the `except` branch, explicitly. -/
theorem fallbackLine_eq (config : Config) (kind : Chars) :
    fallbackLine config kind = privmsgLine config.channel
      (("*** unhandled ").data ++ kind ++ (" -- see logs").data) := by
  unfold fallbackLine
  rw [pyFormat_PRIVMSG _ config.channel
    (("*** unhandled ").data ++ kind ++ (" -- see logs").data)
    (by simp [List.lookup]) (by simp [List.lookup])]

/-- `findMatch` over the concrete rule table, case-analyzed. -/
theorem findMatch_HANDLERS {line : Chars} {f : Factory} {caps : List Chars}
    (h : findMatch HANDLERS line = some (f, caps)) :
    (f = pong ∧ ∃ rem, mtks pongPat line = some (caps, rem)) ∨
    (f = cmd_uptime ∧ ∃ rem, mtks uptimePat line = some (caps, rem)) ∨
    (f = msg_ping ∧ ∃ rem, mtks msgPingPat line = some (caps, rem)) := by
  rw [show HANDLERS = [(pongPat, pong), (uptimePat, cmd_uptime), (msgPingPat, msg_ping)]
    from rfl] at h
  rw [findMatch] at h
  cases h1 : mtks pongPat line with
  | some r1 =>
    obtain ⟨c1, rem1⟩ := r1
    rw [h1] at h
    simp only [Option.some.injEq, Prod.mk.injEq] at h
    obtain ⟨hf, hc⟩ := h
    exact Or.inl ⟨hf.symm, rem1, by rw [← hc]⟩
  | none =>
    rw [h1] at h
    simp only [] at h
    rw [findMatch] at h
    cases h2 : mtks uptimePat line with
    | some r2 =>
      obtain ⟨c2, rem2⟩ := r2
      rw [h2] at h
      simp only [Option.some.injEq, Prod.mk.injEq] at h
      obtain ⟨hf, hc⟩ := h
      exact Or.inr (Or.inl ⟨hf.symm, rem2, by rw [← hc]⟩)
    | none =>
      rw [h2] at h
      simp only [] at h
      rw [findMatch] at h
      cases h3 : mtks msgPingPat line with
      | some r3 =>
        obtain ⟨c3, rem3⟩ := r3
        rw [h3] at h
        simp only [Option.some.injEq, Prod.mk.injEq] at h
        obtain ⟨hf, hc⟩ := h
        exact Or.inr (Or.inr ⟨hf.symm, rem3, by rw [← hc]⟩)
      | none =>
        rw [h3] at h
        simp [findMatch] at h

/-- C1: for every list of registered rules and every incoming line, if the
line matches rule `i`'s pattern and matches no rule registered before `i`,
then the dispatch lookup returns exactly rule `i`'s handler factory (with rule
`i`'s captures) independently of any later rules — first match wins and at
most one rule's pipeline runs per line. -/
theorem claim_C1_first_match_wins (hs : List (List Tok × Factory)) (line : Chars) :
    ∀ (i : Nat) (hi : i < hs.length),
      mtks (hs.get ⟨i, hi⟩).1 line ≠ none →
      (∀ j (hj : j < i), mtks (hs.get ⟨j, Nat.lt_trans hj hi⟩).1 line = none) →
      ∃ r, mtks (hs.get ⟨i, hi⟩).1 line = some r ∧
        findMatch hs line = some ((hs.get ⟨i, hi⟩).2, r.1) := by
  induction hs with
  | nil => intro i hi; exact absurd hi (Nat.not_lt_zero i)
  | cons pf tl ih =>
    obtain ⟨p, f⟩ := pf
    intro i hi hmatch hbefore
    cases i with
    | zero =>
      cases hm : mtks p line with
      | none => exact absurd hm hmatch
      | some r => exact ⟨r, hm, by rw [findMatch, hm]; rfl⟩
    | succ n =>
      have h0 : mtks p line = none := hbefore 0 (Nat.succ_pos n)
      have hi2 : n < tl.length := Nat.lt_of_succ_lt_succ hi
      have hmatch2 : mtks (tl.get ⟨n, hi2⟩).1 line ≠ none := hmatch
      have hbefore2 : ∀ j (hj : j < n),
          mtks (tl.get ⟨j, Nat.lt_trans hj hi2⟩).1 line = none :=
        fun j hj => hbefore (j + 1) (Nat.succ_lt_succ hj)
      obtain ⟨r, hr1, hr2⟩ := ih n hi2 hmatch2 hbefore2
      exact ⟨r, hr1, by rw [findMatch, h0]; exact hr2⟩

/-- C1 witness: the chat line `':a!h PRIVMSG #c :PING x\r\n'` matches rule 2
(`msg_ping`) and neither earlier rule, so dispatch picks `msg_ping`. -/
theorem claim_C1_witness :
    ∃ r, mtks (HANDLERS.get ⟨2, by decide⟩).1 ((":a!h PRIVMSG #c :PING x\r\n").data) =
        some r ∧
      findMatch HANDLERS ((":a!h PRIVMSG #c :PING x\r\n").data) =
        some ((HANDLERS.get ⟨2, by decide⟩).2, r.1) :=
  claim_C1_first_match_wins HANDLERS ((":a!h PRIVMSG #c :PING x\r\n").data) 2 (by decide)
    (by decide)
    (by
      intro j hj
      interval_cases j
      · exact (by decide : mtks pongPat ((":a!h PRIVMSG #c :PING x\r\n").data) = none)
      · exact (by decide : mtks uptimePat ((":a!h PRIVMSG #c :PING x\r\n").data) = none))

/-- C2: when a matched handler's resolution raises any error, the loop
records the traceback, sends the fallback chat line
`PRIVMSG #<channel> :*** unhandled <ErrorKind> -- see logs\r\n` to the
configured channel, and keeps processing subsequent lines. -/
theorem claim_C2_error_containment (config : Config) (w : World) (line kind : Chars)
    (f : Factory) (caps : List Chars)
    (hfind : findMatch HANDLERS line = some (f, caps))
    (herr : Response.call (f caps) config w = Except.error kind) :
    (processLine config w line).sent =
      some (privmsgLine config.channel
        (("*** unhandled ").data ++ kind ++ (" -- see logs").data)) ∧
    (processLine config w line).tbLogged = true ∧
    ∀ rest, runLoop config ((line, w) :: rest) =
      processLine config w line :: runLoop config rest := by
  refine ⟨?_, ?_, fun rest => by rw [runLoop]⟩
  · simp [processLine, hfind, herr, fallbackLine_eq]
  · simp [processLine, hfind, herr]

/-- C2 witness: an `!uptime` line whose status query raises `Exception`
produces the fallback line and the loop equation holds. -/
theorem claim_C2_witness :
    (processLine cfg0 ⟨Except.error (("Exception").data), 0⟩
        ((":a!h PRIVMSG #c :!uptime\r\n").data)).sent =
      some (privmsgLine cfg0.channel
        (("*** unhandled ").data ++ (("Exception").data) ++ (" -- see logs").data)) ∧
    (processLine cfg0 ⟨Except.error (("Exception").data), 0⟩
        ((":a!h PRIVMSG #c :!uptime\r\n").data)).tbLogged = true ∧
    ∀ rest, runLoop cfg0
        (((":a!h PRIVMSG #c :!uptime\r\n").data, ⟨Except.error (("Exception").data), 0⟩) :: rest) =
      processLine cfg0 ⟨Except.error (("Exception").data), 0⟩
          ((":a!h PRIVMSG #c :!uptime\r\n").data) :: runLoop cfg0 rest :=
  claim_C2_error_containment cfg0 ⟨Except.error (("Exception").data), 0⟩
    ((":a!h PRIVMSG #c :!uptime\r\n").data) (("Exception").data) cmd_uptime
    [("a").data, ("c").data, ("!uptime").data] (by rfl) (by rfl)

/-- C3: the uptime handler does NOT compute the full datetime difference: it
uses `timedelta.seconds`, the seconds-of-day remainder modulo 86400. For a
stream started 86401 seconds (one day and one second) before now, the code
reports `streaming for: 1 seconds` instead of the full elapsed interval. -/
theorem claim_C3_uptime_seconds_bug :
    uptimeCall cfg0 ⟨Except.ok [⟨0⟩], 86401⟩ =
      Except.ok (some (("PRIVMSG #chan :streaming for: 1 seconds\r\n").data)) ∧
    ((86401 : Int) - 0).emod 86400 ≠ (86401 : Int) - 0 :=
  ⟨by rfl, by decide⟩

/-- C4: an empty stream list yields `not currently streaming!`; a stream
started exactly 3661 seconds ago yields
`streaming for: 1 hours, 1 minutes, 1 seconds`; exactly 60 seconds yields only
`1 minutes`; and in general the elapsed seconds decompose into hours, minutes,
seconds, largest to smallest, each omitted when zero. -/
theorem claim_C4_uptime_formatting :
    (∀ (config : Config) (w : World), w.streams = Except.ok [] →
      uptimeCall config w = Except.ok (some (privmsgLine config.channel
        (("not currently streaming!").data)))) ∧
    (∀ (config : Config) (w : World) (r : StreamRec),
      w.streams = Except.ok [r] → w.now - r.started_at = 3661 →
      uptimeCall config w = Except.ok (some (privmsgLine config.channel
        (("streaming for: 1 hours, 1 minutes, 1 seconds").data)))) ∧
    (∀ (config : Config) (w : World) (r : StreamRec),
      w.streams = Except.ok [r] → w.now - r.started_at = 60 →
      uptimeCall config w = Except.ok (some (privmsgLine config.channel
        (("streaming for: 1 minutes").data)))) ∧
    (∀ e : Int, partsLoop e UNITS =
      (if e.ediv 3600 ≠ 0 then [(toString (e.ediv 3600)).data ++ ((" hours").data)] else []) ++
      (if (e.emod 3600).ediv 60 ≠ 0 then
        [(toString ((e.emod 3600).ediv 60)).data ++ ((" minutes").data)] else []) ++
      (if e.emod 60 ≠ 0 then [(toString (e.emod 60)).data ++ ((" seconds").data)] else [])) := by
  refine ⟨fun config w hw => uptimeCall_offline config w hw, ?_, ?_, ?_⟩
  · intro config w r hw hnow
    rw [uptimeCall_online config w r [] hw, hnow]
    rw [show ((3661 : Int).emod 86400) = 3661 from by decide]
    rw [show uptimeMsg 3661 = (("streaming for: 1 hours, 1 minutes, 1 seconds").data) from by
      rfl]
  · intro config w r hw hnow
    rw [uptimeCall_online config w r [] hw, hnow]
    rw [show ((60 : Int).emod 86400) = 60 from by decide]
    rw [show uptimeMsg 60 = (("streaming for: 1 minutes").data) from by rfl]
  · intro e
    have h60 : (e.emod 3600).emod 60 = e.emod 60 := Int.emod_emod_of_dvd e (by norm_num)
    have h1 : ∀ a : Int, a.ediv 1 = a := fun a => Int.ediv_one a
    simp only [partsLoop, UNITS, h1, h60, List.append_nil, List.append_assoc]

/-- C4 witness: the offline and the 3661-second cases at concrete inputs. -/
theorem claim_C4_witness :
    uptimeCall cfg0 w0 = Except.ok (some (privmsgLine cfg0.channel
      (("not currently streaming!").data))) ∧
    uptimeCall cfg0 ⟨Except.ok [⟨0⟩], 3661⟩ = Except.ok (some (privmsgLine cfg0.channel
      (("streaming for: 1 hours, 1 minutes, 1 seconds").data))) :=
  ⟨claim_C4_uptime_formatting.1 cfg0 w0 (by rfl),
   claim_C4_uptime_formatting.2.1 cfg0 ⟨Except.ok [⟨0⟩], 3661⟩ ⟨0⟩ (by rfl) (by decide)⟩

/-- C5: the chat-level echo: `:alice!alice@x PRIVMSG #chan :PING hello\r\n`
produces `PRIVMSG #chan :PONG hello\r\n`; braces in the remainder are escaped
before substitution, so formatting never raises and literal braces render
unchanged — for all captures, resolving `msg_ping`'s response yields
`PRIVMSG #<channel> :PONG <after-first-space>\r\n`. -/
theorem claim_C5_msg_ping_echo :
    (∀ (config : Config) (w : World) (u ch m : Chars),
      Response.call (msg_ping [u, ch, m]) config w =
        Except.ok (some (privmsgLine ch
          (("PONG ").data ++ (pyPartition ' ' m).2.2)))) ∧
    (processLine cfg0 w0 ((":alice!alice@x PRIVMSG #chan :PING hello\r\n").data)).sent =
      some (("PRIVMSG #chan :PONG hello\r\n").data) ∧
    (processLine cfg0 w0 ((":alice!alice@x PRIVMSG #chan :PING \x7bevil\x7d\r\n").data)).sent =
      some (("PRIVMSG #chan :PONG \x7bevil\x7d\r\n").data) ∧
    (processLine cfg0 w0 ((":alice!alice@x PRIVMSG #chan :PING \x7bevil\x7d\r\n").data)).tbLogged =
      false := by
  refine ⟨?_, by decide, by decide, by decide⟩
  intro config w u ch m
  simpa using msg_ping_call [u, ch, m] config w

/-- C6: the protocol keep-alive is a pure echo: for every newline-free
payload, `'PING <payload>\r\n'` matches the `pong` rule capturing the payload,
the factory immediately returns the literal command response
`'PONG <payload>\r\n'`, and resolution returns it unchanged for every
configuration and world. -/
theorem claim_C6_pong_echo (payload : Chars) (hnl : payload.contains '\n' = false) :
    mtks pongPat (("PING ").data ++ (payload ++ crlf)) = some ([payload], []) ∧
    pong [payload] = Response.cmd (("PONG ").data ++ payload ++ crlf) ∧
    ∀ (config : Config) (w : World),
      Response.call (pong [payload]) config w =
        Except.ok (some (("PONG ").data ++ payload ++ crlf)) := by
  refine ⟨mtks_pong_exact payload hnl, by simp [pong], ?_⟩
  intro config w
  simp [pong, Response.call]

/-- C6 witness: payload `':abc123'`. -/
theorem claim_C6_witness :
    mtks pongPat (("PING ").data ++ (((":abc123").data) ++ crlf)) =
      some ([(":abc123").data], []) ∧
    pong [(":abc123").data] = Response.cmd (("PONG ").data ++ ((":abc123").data) ++ crlf) ∧
    ∀ (config : Config) (w : World),
      Response.call (pong [(":abc123").data]) config w =
        Except.ok (some (("PONG ").data ++ ((":abc123").data) ++ crlf)) :=
  claim_C6_pong_echo ((":abc123").data) (by decide)

theorem count_ge_two (x rem : Chars) (hrem : rem = ['\n']) :
    ¬ (List.count '\n' (x ++ (crlf ++ rem)) ≤ 1) := by
  subst hrem
  rw [List.count_append, List.count_append,
    show List.count '\n' crlf = 1 from by decide,
    show List.count '\n' (['\n'] : Chars) = 1 from by decide]
  omega

/-- C7 counterexample: the registered `pong` pattern matches the input
`'PING a\r\n\n'` — an input that does not end with the `'\r\n'` terminator —
and the matched text (everything except the last character) is a proper
substring of the input, because Python `$` also matches just before a final
newline. This refutes the claim as stated for arbitrary input strings. -/
theorem claim_C7_counterexample :
    (HANDLERS.get ⟨0, by decide⟩).1 = pongPat ∧
    mtks pongPat (("PING a\r\n\n").data) = some ([("a").data], ['\n']) ∧
    crlf.isSuffixOf (("PING a\r\n\n").data) = false ∧
    (("PING a\r\n\n").data).take ((("PING a\r\n\n").data).length - 1) ≠
      (("PING a\r\n\n").data) :=
  ⟨rfl, by decide, by decide, by decide⟩

/-- C7 (amended): every registered pattern anchors at position 0 (the matcher
starts there) and a match consumes the entire input up to the `'\r\n'`
terminator, except that one final `'\n'` may be left unconsumed; in
particular, on any input containing at most one newline the match consumes the
whole input, which then ends in `'\r\n'`. -/
theorem claim_C7_full_line_anchor (pf : List Tok × Factory) (hmem : pf ∈ HANDLERS)
    (s rem : Chars) (caps : List Chars) (h : mtks pf.1 s = some (caps, rem)) :
    (∃ body, s = (body ++ crlf) ++ rem) ∧ (rem = [] ∨ rem = ['\n']) ∧
    (List.count '\n' s ≤ 1 → rem = []) := by
  have hs := mtks_sound _ _ _ _ h
  have hchat : ∀ (pfx s2 rem2 : Chars) (caps2 : List Chars), RM (chatPat pfx) s2 caps2 rem2 →
      (∃ body, s2 = (body ++ crlf) ++ rem2) ∧ (rem2 = [] ∨ rem2 = ['\n']) ∧
      (List.count '\n' s2 ≤ 1 → rem2 = []) := by
    intro pfx s2 rem2 caps2 hrm
    obtain ⟨u, mid, ch, mr, hcaps, hu1, hu2, hmid, hch1, hch2, hmr, hrem, hseq⟩ :=
      RM_chatPat hrm
    subst hseq
    refine ⟨⟨[':'] ++ (u ++ (mid ++ ((" PRIVMSG #").data ++ (ch ++ ((" :").data ++
      (pfx ++ mr)))))), by simp [List.append_assoc]⟩, hrem, ?_⟩
    intro hle
    rcases hrem with rfl | rfl
    · rfl
    · exfalso
      rw [show [':'] ++ (u ++ (mid ++ ((" PRIVMSG #").data ++ (ch ++ ((" :").data ++
          (pfx ++ (mr ++ (crlf ++ (['\n'] : Chars))))))))) =
          ([':'] ++ (u ++ (mid ++ ((" PRIVMSG #").data ++ (ch ++ ((" :").data ++
            (pfx ++ mr))))))) ++ (crlf ++ ['\n']) from by simp [List.append_assoc]] at hle
      exact count_ge_two _ _ rfl hle
  simp only [HANDLERS, List.mem_cons, List.not_mem_nil, or_false] at hmem
  rcases hmem with rfl | rfl | rfl
  · obtain ⟨g, hcaps, hg, hrem, hseq⟩ := RM_pongPat hs
    subst hseq
    refine ⟨⟨("PING ").data ++ g, by simp [List.append_assoc]⟩, hrem, ?_⟩
    intro hle
    rcases hrem with rfl | rfl
    · rfl
    · exfalso
      rw [show ("PING ").data ++ (g ++ (crlf ++ (['\n'] : Chars))) =
          ((("PING ").data ++ g) ++ (crlf ++ ['\n'])) from by simp [List.append_assoc]] at hle
      exact count_ge_two _ _ rfl hle
  · exact hchat (("!uptime").data) s rem caps hs
  · exact hchat (("PING").data) s rem caps hs

/-- C7 witness: the `pong` rule on the well-terminated line `'PING a\r\n'`,
whose match has empty remainder. -/
theorem claim_C7_witness :
    (∃ body, (("PING a\r\n").data : Chars) = (body ++ crlf) ++ ([] : Chars)) ∧
    (([] : Chars) = [] ∨ ([] : Chars) = ['\n']) ∧
    (List.count '\n' (("PING a\r\n").data) ≤ 1 → ([] : Chars) = []) :=
  claim_C7_full_line_anchor (pongPat, pong) (List.mem_cons_self _ _)
    (("PING a\r\n").data) [] [("a").data] (by decide)

/-- C8 counterexample: the protocol-level `PONG` command response is sent by
the loop but is NOT recognized by `SEND_MSG_RE`, the recognizer used for
logging outbound messages (it only matches `PRIVMSG` chat lines). -/
theorem claim_C8_counterexample :
    (processLine cfg0 w0 (("PING :abc\r\n").data)).sent = some (("PONG :abc\r\n").data) ∧
    mtks SEND_MSG_RE (("PONG :abc\r\n").data) = none :=
  ⟨by decide, by decide⟩

/-- C8 (amended): for a configuration whose channel name is nonempty and
space-free, every response the loop decides to send is terminated by `'\r\n'`,
and is either the protocol keep-alive command `'PONG <payload>\r\n'` (a
command line, not recognized by the chat-line recognizer) or is re-recognized
by `SEND_MSG_RE`, the recognizer used for logging outbound messages. -/
theorem claim_C8_roundtrip_amended (config : Config) (w : World) (line r : Chars)
    (hch1 : config.channel ≠ []) (hch2 : config.channel.contains ' ' = false)
    (h : (processLine config w line).sent = some r) :
    (∃ body, r = body ++ crlf) ∧
    ((∃ g, r = ("PONG ").data ++ g ++ crlf) ∨ mtks SEND_MSG_RE r ≠ none) := by
  cases hf : findMatch HANDLERS line with
  | none => simp [processLine, hf] at h
  | some fc =>
    obtain ⟨f, caps⟩ := fc
    cases hc : Response.call (f caps) config w with
    | error k =>
      simp only [processLine, hf, hc, Option.some.injEq] at h
      subst h
      rw [fallbackLine_eq]
      refine ⟨⟨_, rfl⟩, Or.inr ?_⟩
      rw [show ("*** unhandled ").data ++ k ++ (" -- see logs").data =
          '*' :: (("** unhandled ").data ++ k ++ (" -- see logs").data) from by
        simp [List.append_assoc]]
      exact SEND_recognizes config.channel '*' _ hch1 hch2 (by decide)
    | ok ores =>
      cases ores with
      | none => simp [processLine, hf, hc] at h
      | some res =>
        simp only [processLine, hf, hc, Option.some.injEq] at h
        subst h
        rcases findMatch_HANDLERS hf with ⟨rfl, rem, hm⟩ | ⟨rfl, rem, hm⟩ | ⟨rfl, rem, hm⟩
        · have hcall : Response.call (pong caps) config w =
              Except.ok (some (("PONG ").data ++ caps.getD 0 [] ++ crlf)) := rfl
          rw [hcall] at hc
          simp only [Except.ok.injEq, Option.some.injEq] at hc
          subst hc
          exact ⟨⟨("PONG ").data ++ caps.getD 0 [], rfl⟩, Or.inl ⟨caps.getD 0 [], rfl⟩⟩
        · have hcallu : Response.call (cmd_uptime caps) config w = uptimeCall config w := rfl
          rw [hcallu] at hc
          cases hw : w.streams with
          | error k2 =>
            have hbad : uptimeCall config w = Except.error k2 := by
              unfold uptimeCall; rw [hw]
            rw [hbad] at hc
            cases hc
          | ok data =>
            cases data with
            | nil =>
              rw [uptimeCall_offline config w hw] at hc
              simp only [Except.ok.injEq, Option.some.injEq] at hc
              subst hc
              refine ⟨⟨_, rfl⟩, Or.inr ?_⟩
              exact SEND_recognizes config.channel 'n'
                ((("ot currently streaming!").data)) hch1 hch2 (by decide)
            | cons rec tl =>
              rw [uptimeCall_online config w rec tl hw] at hc
              simp only [Except.ok.injEq, Option.some.injEq] at hc
              subst hc
              refine ⟨⟨_, rfl⟩, Or.inr ?_⟩
              exact SEND_recognizes config.channel 's'
                ((("treaming for: ").data) ++ List.intercalate ((", ").data)
                  (partsLoop ((w.now - rec.started_at).emod 86400) UNITS))
                hch1 hch2 (by decide)
        · rw [msg_ping_call caps config w] at hc
          simp only [Except.ok.injEq, Option.some.injEq] at hc
          subst hc
          have hs2 := mtks_sound _ _ _ _ hm
          obtain ⟨u, mid, ch, mr, hcaps, hu1, hu2, hmid, hchn1, hchn2, hmr, hrem2, hseq⟩ :=
            @RM_chatPat (("PING").data) _ _ _ hs2
          subst hcaps
          refine ⟨⟨_, rfl⟩, Or.inr ?_⟩
          exact SEND_recognizes ch 'P'
            ((("ONG ").data) ++ (pyPartition ' ' ((("PING").data) ++ mr)).2.2)
            hchn1 hchn2 (by decide)

/-- C8 witness: the chat-echo reply on a sane channel is `'\r\n'`-terminated
and recognized by `SEND_MSG_RE`. -/
theorem claim_C8_witness :
    (∃ body, (("PRIVMSG #c :PONG x\r\n").data : Chars) = body ++ crlf) ∧
    ((∃ g, (("PRIVMSG #c :PONG x\r\n").data : Chars) = ("PONG ").data ++ g ++ crlf) ∨
      mtks SEND_MSG_RE (("PRIVMSG #c :PONG x\r\n").data) ≠ none) :=
  claim_C8_roundtrip_amended cfg0 w0 ((":a!h PRIVMSG #c :PING x\r\n").data)
    (("PRIVMSG #c :PONG x\r\n").data) (by decide) (by decide) (by decide)

/-- C9: the bootstrap sends exactly `PASS`, `NICK`, `JOIN` in that order
before the loop, and the diagnostic trace never contains the credential: for
every quiet/verbose setting, both the bootstrap diagnostics and every loop
step are unchanged when only the credential token differs. -/
theorem claim_C9_bootstrap_secrecy (config : Config) (quiet : Bool) (tok2 : Chars) :
    (bootstrap config quiet).1 =
      [("PASS ").data ++ config.oauth_token ++ crlf,
       ("NICK ").data ++ config.username ++ crlf,
       ("JOIN #").data ++ config.channel ++ crlf] ∧
    (bootstrap config quiet).2 =
      (bootstrap { config with oauth_token := tok2 } quiet).2 ∧
    ∀ (w : World) (line : Chars),
      processLine config w line = processLine { config with oauth_token := tok2 } w line := by
  refine ⟨rfl, by cases quiet <;> rfl, ?_⟩
  intro w line
  have hcall : ∀ resp : Response,
      Response.call resp { config with oauth_token := tok2 } w =
        Response.call resp config w := by
    intro resp
    cases resp <;> rfl
  have hfall : ∀ k : Chars,
      fallbackLine { config with oauth_token := tok2 } k = fallbackLine config k :=
    fun _ => rfl
  unfold processLine
  simp only [hcall, hfall]

/-- C10: the chat-echo rule fires for every chat line whose body merely
begins with the four characters `PING` (no word boundary: `PINGx hello` and
bare `PING` both trigger it), and whenever it matches, the reply is
`'PONG ' ++` the part of the captured body after its first space — so a
space-free body yields `'PONG '` with a trailing space and empty remainder. -/
theorem claim_C10_ping_body_rule :
    (∀ u mid ch r2 rem : Chars, u ≠ [] → u.contains '!' = false →
      mid.contains '\n' = false → ch ≠ [] → ch.contains ' ' = false →
      r2.contains '\n' = false → (rem = [] ∨ rem = ['\n']) →
      mtks msgPingPat ([':'] ++ (u ++ (mid ++ ((" PRIVMSG #").data ++
        (ch ++ ((" :").data ++ ((("PING").data) ++ (r2 ++ (crlf ++ rem))))))))) ≠ none) ∧
    (∀ (line rem : Chars) (caps : List Chars) (config : Config) (w : World),
      mtks msgPingPat line = some (caps, rem) →
      ∃ u ch m, caps = [u, ch, m] ∧ (("PING").data).isPrefixOf m ∧
        Response.call (msg_ping caps) config w = Except.ok (some (privmsgLine ch
          (("PONG ").data ++ (pyPartition ' ' m).2.2)))) ∧
    (∀ m : Chars, m.contains ' ' = false → (pyPartition ' ' m).2.2 = []) ∧
    mtks msgPingPat ((":a!h PRIVMSG #c :PINGx hello\r\n").data) ≠ none ∧
    mtks msgPingPat ((":a!h PRIVMSG #c :PING\r\n").data) ≠ none ∧
    (processLine cfg0 w0 ((":a!h PRIVMSG #c :PING\r\n").data)).sent =
      some (("PRIVMSG #c :PONG \r\n").data) := by
  refine ⟨?_, ?_, ?_, by decide, by decide, by decide⟩
  · intro u mid ch r2 rem hu1 hu2 hmid hch1 hch2 hr2 hrem
    exact mtks_complete
      (RM_chatPat_build (("PING").data) u mid ch r2 rem hu1 hu2 hmid hch1 hch2 hr2 hrem)
  · intro line rem caps config w hm
    have hs := mtks_sound _ _ _ _ hm
    obtain ⟨u, mid, ch, mr, hcaps, hu1, hu2, hmid, hch1, hch2, hmr, hrem, hseq⟩ :=
      @RM_chatPat (("PING").data) _ _ _ hs
    refine ⟨u, ch, (("PING").data) ++ mr, hcaps,
      isPrefixOf_true_iff.mpr (List.prefix_append _ _), ?_⟩
    subst hcaps
    exact msg_ping_call [u, ch, (("PING").data) ++ mr] config w
  · intro m hm
    rw [pyPartition, if_neg (by simp_all)]

/-- C10 witness: the chat line with body `'PING x hello'` assembled from
components fires the rule, and the shape characterization applied at the
concrete matched line `':a!h PRIVMSG #c :PING x\r\n'`. -/
theorem claim_C10_witness :
    mtks msgPingPat ([':'] ++ ((("a").data) ++ ((("!h").data) ++ ((" PRIVMSG #").data ++
      ((("c").data) ++ ((" :").data ++ ((("PING").data) ++ ((("x hello").data) ++
      (crlf ++ ([] : Chars)))))))))) ≠ none ∧
    ∃ u ch m, ([("a").data, ("c").data, ("PING x").data] : List Chars) = [u, ch, m] ∧
      (("PING").data).isPrefixOf m ∧
      Response.call (msg_ping [("a").data, ("c").data, ("PING x").data]) cfg0 w0 =
        Except.ok (some (privmsgLine ch (("PONG ").data ++ (pyPartition ' ' m).2.2))) :=
  ⟨claim_C10_ping_body_rule.1 (("a").data) (("!h").data) (("c").data) (("x hello").data) []
      (by decide) (by decide) (by decide) (by decide) (by decide) (by decide) (Or.inl rfl),
   claim_C10_ping_body_rule.2.1 ((":a!h PRIVMSG #c :PING x\r\n").data) []
      [("a").data, ("c").data, ("PING x").data] cfg0 w0 (by decide)⟩

end TwitchBot
